import Mathlib

/-
Verification of the real-time conversational turn-taking engine of the
GDD-AI backend (`backend/app/stream_engine.py`, `backend/app/gdd_api.py`,
`backend/app/gdd_engine/session_manager.py`).

The development shallowly embeds the relevant Python code:
  * the streaming sentence extractor `extract_sentences`;
  * the TTS playback worker `tts_playback_worker` together with the
    cancellation protocol (`tts_cancel_events` flag, `cancel_tts_generation`,
    `worker.cancel()`), modelled as a state machine whose steps are the
    worker's atomic segments between `await` suspension points under the
    single-event-loop cooperative scheduling the code relies on;
  * the `llm_busy` single-flight protocol of `handle_text_message` /
    `stream_llm_to_client`, together with the `stop_llm` handler's
    early clearing of the flag;
  * the `on_final` speech-recognition handler with its duplicate-final
    deduplication and debounced submission (`submit_after_delay`);
  * the GDD wizard advance operations (`/gdd/next` and the "go next"
    branch of `process_gdd_wizard`) over the concrete `QUESTIONS` list;
  * `SessionManager.create_session` / `SessionManager.add_answer`.

Machine strings are `List Char` (the characters of the Python `str`);
audio byte payloads are `List Nat`.
-/

/-! ## Python string primitives -/

/-- Whitespace test matching Python `str.isspace` on the ASCII range
(space, tab, newline, carriage return, vertical tab, form feed). -/
def pyIsSpace (c : Char) : Bool :=
  c == ' ' || c == '\t' || c == '\n' || c == '\r' || c == '\x0b' || c == '\x0c'

/-- Python `str.lstrip()` on the character list. -/
def pyLstrip (l : List Char) : List Char := l.dropWhile pyIsSpace

/-- Python `str.rstrip()` on the character list. -/
def pyRstrip (l : List Char) : List Char := (l.reverse.dropWhile pyIsSpace).reverse

/-- Python `str.strip()`: leading and trailing whitespace removed. -/
def pyStrip (l : List Char) : List Char := pyRstrip (pyLstrip l)

/-- Python `str.lower()` (ASCII case folding suffices for the texts compared). -/
def pyLower (l : List Char) : List Char := l.map Char.toLower

/-- The non-whitespace characters of a string, in order.  Used to state that
the sentence extractor neither drops nor duplicates text up to whitespace. -/
def noWs (l : List Char) : List Char := l.filter (fun c => !pyIsSpace c)

/-- Python slice `buf[a:b]`. -/
def pySlice (buf : List Char) (a b : Nat) : List Char := (buf.take b).drop a

/-! ## Sentence extractor (stream_engine.py:120-139, `extract_sentences`) -/

/-- The terminal punctuation set `ends = set(".!?…")` of `extract_sentences`. -/
def ends : List Char := ['.', '!', '?', '…']

/-- The boundary test of `extract_sentences` at loop position `idx` holding
character `ch`: `ch in ends` and the following character (`buf[idx+1]` when it
exists, otherwise "None") is absent or whitespace (stream_engine.py:130-133). -/
def sentenceEnd (buf : List Char) (ch : Char) (idx : Nat) : Bool :=
  ends.contains ch &&
    (decide (buf.length ≤ idx + 1) || pyIsSpace (buf.getD (idx + 1) ' '))

/-- The `for idx, ch in enumerate(buf)` loop of `extract_sentences`
(stream_engine.py:130-137).  The first list argument is the still-unvisited
suffix of `buf` (so `idx` walks the positions of `buf`); `last_cut` and the
accumulated `sentences` list are threaded exactly as in the source: on a
boundary the slice `buf[last_cut:idx+1]` is stripped and appended when
non-empty, and `last_cut` moves to `idx + 1`. -/
def extractGo (buf : List Char) :
    List Char → Nat → Nat → List (List Char) → List (List Char) × Nat
  | [], _idx, last_cut, acc => (acc, last_cut)
  | ch :: rest, idx, last_cut, acc =>
    if sentenceEnd buf ch idx then
      let s := pyStrip (pySlice buf last_cut (idx + 1))
      extractGo buf rest (idx + 1) (idx + 1) (if s = [] then acc else acc ++ [s])
    else
      extractGo buf rest (idx + 1) last_cut acc

/-- `extract_sentences(buffer)` (stream_engine.py:120-139): runs the loop from
`last_cut = 0` and returns the collected sentences together with the remainder
`buf[last_cut:].lstrip()`. -/
def extract_sentences (buffer : List Char) : List (List Char) × List Char :=
  let r := extractGo buffer buffer 0 0 []
  (r.1, pyLstrip (buffer.drop r.2))

/-- Scan of the loop's boundary test over a suffix starting at position `idx`:
true when some position triggers the cut branch of `extract_sentences`. -/
def anyBnd (buf : List Char) : List Char → Nat → Bool
  | [], _ => false
  | ch :: rest, idx => sentenceEnd buf ch idx || anyBnd buf rest (idx + 1)

/-- A buffer contains a sentence boundary when some loop position of
`extract_sentences` takes the cut branch. -/
def hasBoundary (buf : List Char) : Bool := anyBnd buf buf 0

/-! ## Azure TTS synthesis and the playback worker
(stream_engine.py:103-115, 153-165, 170-273) -/

/-- The Azure speech SDK result reasons distinguished by the code: the success
reason `SynthesizingAudioCompleted` checked at stream_engine.py:159, and the
non-success reasons the same check sends to the error branch. -/
inductive ResultReason
  | synthesizingAudioCompleted
  | synthesisCanceled
  | synthesisError
deriving DecidableEq

/-- The result object of `synthesizer.speak_text_async(text).get()`: a reason
and the raw PCM payload `audio_data`. -/
structure SpeechResult where
  reason : ResultReason
  audio_data : List Nat
deriving DecidableEq

/-- `azure_tts_generate_sync` (stream_engine.py:153-162): returns
`result.audio_data` on `SynthesizingAudioCompleted` and `b""` on any other
reason (the error is logged, never raised). -/
def azure_tts_generate_sync (result : SpeechResult) : List Nat :=
  if result.reason = ResultReason.synthesizingAudioCompleted then result.audio_data
  else []

/-- Outcome of one queued `async_tts` generation task as observed by the
worker's `await gen_task` (stream_engine.py:218-223): normal completion with
bytes, an exception, or task cancellation. -/
inductive SynthOutcome
  | ok (audio : List Nat)
  | err
  | cancelled
deriving DecidableEq

/-- One queued playback item: `enqueue_sentence_for_tts`
(stream_engine.py:259-272) appends the sentence text to
`tts_sentence_queue[session]` and the generation task to
`tts_gen_tasks[session]` in lockstep, so both FIFO lists are modelled as one.
`completedAt` records when the pipelined synthesis would finish; the playback
worker awaits tasks strictly FIFO, so this field is never consulted. -/
structure QueueEntry where
  sentence : List Char
  outcome : SynthOutcome
  completedAt : Nat
deriving DecidableEq

/-- Bytes produced by `audio_bytes = await gen_task` wrapped in
`try/except` (stream_engine.py:218-223): `asyncio.CancelledError` and any
other exception both yield `b""`. -/
def tts_task_result : SynthOutcome → List Nat
  | .ok a => a
  | .err => []
  | .cancelled => []

/-- Suspension point at which the playback worker coroutine is parked.  Under
the single event loop, all worker code between two suspension points runs
atomically, so these are the only places a cancellation can interleave:
`top` (the worker task has just been created / has looped), `awaitingGen`
(inside `await gen_task`, stream_engine.py:219), and `pacing` (inside
`await ws.send_bytes` / the duration sleep, stream_engine.py:231-238). -/
inductive Susp
  | top
  | awaitingGen (e : QueueEntry)
  | pacing
  | done
deriving DecidableEq

/-- Per-session playback state: the lockstep FIFO queues, the
`tts_cancel_events[session]` flag, the worker's suspension point, and the
audio chunks already written to the websocket in order. -/
structure WorkerState where
  queue : List QueueEntry
  cancelSet : Bool
  susp : Susp
  sent : List (List Nat)
deriving DecidableEq

/-- The synchronous head of the worker loop (stream_engine.py:185-211): check
the cancel event and break; break when the lockstep queues are empty (the
`await asyncio.sleep(0.01)` branch is unreachable because the two lists are
popped and appended in lockstep); otherwise pop the oldest entry.  The second
cancel check after the pop (stream_engine.py:206) runs in the same atomic
segment as the first and can never observe a different value, so one check
models both. -/
def loopTop (s : WorkerState) : WorkerState :=
  if s.cancelSet then { s with susp := .done }
  else
    match s.queue with
    | [] => { s with susp := .done }
    | e :: rest => { s with queue := rest, susp := .awaitingGen e }

/-- One resumption of `tts_playback_worker` (stream_engine.py:170-254): run
from the current suspension point to the next one.  At `awaitingGen`, a
cancellation issued during the await has both set the flag and cancelled the
worker task, so the caught `CancelledError` yields `b""`; empty audio is
`continue` (straight back through the loop head), non-empty audio is sent and
the worker parks in the pacing sleep.  A cancellation during the send/sleep
raises out of the worker (stream_engine.py:229-238). -/
def workerResume (s : WorkerState) : WorkerState :=
  match s.susp with
  | .top => loopTop s
  | .awaitingGen e =>
    let audio := if s.cancelSet then [] else tts_task_result e.outcome
    if audio = [] then loopTop s
    else { s with sent := s.sent ++ [audio], susp := .pacing }
  | .pacing => if s.cancelSet then { s with susp := .done } else loopTop s
  | .done => s

/-- The cancellation sequence executed, identically, by the explicit stop
handler (stream_engine.py:1058-1071), the barge-in path of `on_partial`
(stream_engine.py:924-941) and the wizard-activation mode switch
(stream_engine.py:445-459): `tts_cancel_events[session].set()`, then
`cancel_tts_generation(session)` (cancel outstanding generation tasks and
clear both lockstep queues, stream_engine.py:103-115), then
`tts_playback_task[session].cancel()`. -/
def issue_cancellation (s : WorkerState) : WorkerState :=
  { s with cancelSet := true, queue := [] }

/-- Queue side of `enqueue_sentence_for_tts` (stream_engine.py:259-272):
append the sentence and its freshly spawned generation task. -/
def enqueue_entry (s : WorkerState) (e : QueueEntry) : WorkerState :=
  { s with queue := s.queue ++ [e] }

/-- A freshly spawned playback worker over already-enqueued entries: empty
output, cancel event clear, parked at the loop head. -/
def startWorker (entries : List QueueEntry) : WorkerState :=
  { queue := entries, cancelSet := false, susp := .top, sent := [] }

/-- The audio chunks a queue should produce: each entry's awaited task result
in enqueue order, with empty results (synthesis failures and cancellations)
silently skipped, exactly as the worker's `if not audio_bytes: continue`
(stream_engine.py:225-226). -/
def playList (q : List QueueEntry) : List (List Nat) :=
  (q.map (fun e => tts_task_result e.outcome)).filter (fun a => decide (a ≠ []))

/-- An entry with the same text and task outcome but a different synthesis
completion time — used to state that playback order ignores completion
order. -/
def retime (f : Nat → Nat) (e : QueueEntry) : QueueEntry :=
  { e with completedAt := f e.completedAt }

/-! ## Single-flight `llm_busy` protocol
(stream_engine.py:277-334, 1043-1082, 1116-1141) -/

/-- Per-session generation state: the `llm_busy[session]` flag, the
cooperative `llm_stop_flags[session]` flag, and the number of
`stream_llm_to_client` tasks currently alive (a task stays alive from its
spawn until it runs its final line, stream_engine.py:334 — in particular a
stopped task is still alive until it observes the stop flag and winds
down). -/
structure LlmState where
  llm_busy : Bool
  llm_stop : Bool
  inFlight : Nat
deriving DecidableEq

/-- Events touching the single-flight state: the arrival of a typed-text
message or committed final utterance (`handled` tells whether
`process_gdd_wizard` consumed it), the completion — normal or after a caught
error — of one `stream_llm_to_client` task, and the `stop_llm` control
message. -/
inductive LlmEvent
  | textMessage (handled : Bool)
  | streamDone
  | stopLlm
deriving DecidableEq

/-- One protocol step.  `textMessage`: `handle_text_message`
(stream_engine.py:1116-1141) returns immediately while `llm_busy` is set
(the message is dropped, not queued); otherwise it sets the flag in the same
synchronous segment as the check, then either the wizard consumes the message
and the flag is cleared with no task launched, or a `stream_llm_to_client`
task is spawned, whose first statement resets `llm_stop_flags[session]`
(stream_engine.py:284).  `streamDone`: the stream's final line clears
`llm_busy` (stream_engine.py:334), on normal completion and on the
caught-exception path alike; the guard `inFlight = 0` only keeps the step
total, since no task can complete when none is alive.  `stopLlm`: the
`stop_llm` handler raises the cooperative stop flag and clears `llm_busy`
(stream_engine.py:1061, 1080) in one synchronous segment — any running
stream task stays alive until it next observes the stop flag at a token. -/
def llmStep : LlmEvent → LlmState → LlmState
  | .textMessage handled, s =>
    if s.llm_busy then s
    else if handled then s
    else { llm_busy := true, llm_stop := false, inFlight := s.inFlight + 1 }
  | .streamDone, s =>
    if s.inFlight = 0 then s
    else { s with llm_busy := false, inFlight := s.inFlight - 1 }
  | .stopLlm, s =>
    { s with llm_busy := false, llm_stop := true }

/-- Fresh session: flags clear, no stream task (ensure_structs,
stream_engine.py:66-70). -/
def llmInit : LlmState := ⟨false, false, 0⟩

/-- The state after a sequence of protocol events on a fresh session. -/
def runLlm (evs : List LlmEvent) : LlmState := evs.foldl (fun s e => llmStep e s) llmInit

/-- The single-flight invariant: never more than one stream task alive, and
`llm_busy` is set exactly while one is. -/
def LlmInv (s : LlmState) : Prop := s.inFlight ≤ 1 ∧ (s.llm_busy = true ↔ s.inFlight = 1)

/-! ## Final-recognition handler: deduplication and debounce
(stream_engine.py:848-866, 957-1019) -/

/-- The noise utterances dropped by `on_final` (stream_engine.py:963):
`[".", "uh", "um"]`, compared against the lower-cased stripped text. -/
def NOISE : List (List Char) := [".".data, "uh".data, "um".data]

/-- Per-session recognition state: `pending_user_text[session]` (the
last-seen finalized utterance), whether the `completion_timer[session]`
debounce task is alive and uncancelled, whether a `pending_review_task` is
alive, and the utterances actually handed on for processing by
`submit_after_delay`. -/
structure SttState where
  pending_user_text : Option (List Char)
  timerActive : Bool
  reviewActive : Bool
  submitted : List (List Char)
deriving DecidableEq

/-- `on_final` (stream_engine.py:957-1019) on a recognized-speech event with
text `text`: strip; drop empty or noise text with no effect; drop a text equal
to `pending_user_text[session]` with no effect (duplicate Azure finals);
otherwise record the text as pending, cancel any pending review task, cancel
the previous completion timer and start a fresh debounce timer
(`submit_after_delay` scheduled after `estimate_completion_delay`). -/
def on_final (s : SttState) (text : List Char) : SttState :=
  let raw_text := pyStrip text
  if raw_text = [] ∨ pyLower raw_text ∈ NOISE then s
  else if s.pending_user_text = some raw_text then s
  else
    { pending_user_text := some raw_text, timerActive := true, reviewActive := false,
      submitted := s.submitted }

/-- `submit_after_delay` (stream_engine.py:848-866) when its sleep finishes:
a cancelled timer does nothing (the `asyncio.CancelledError` branch returns);
otherwise the current `pending_user_text` is stripped and, when non-empty,
handed to `process_gdd_wizard` / `handle_text_message` (recorded here in
`submitted`); either way the timer task is now done. -/
def submit_after_delay (s : SttState) : SttState :=
  if s.timerActive = false then s
  else
    let text := pyStrip (s.pending_user_text.getD [])
    if text = [] then { s with timerActive := false }
    else { s with timerActive := false, submitted := s.submitted ++ [text] }

/-! ## GDD wizard questions and advance
(gdd_engine/gdd_questions.py, gdd_api.py:102-126, stream_engine.py:540-589) -/

/-- The fixed questionnaire `QUESTIONS` (gdd_engine/gdd_questions.py). -/
def QUESTIONS : List String := [
  "What is the core fantasy or big idea of your game?",
  "Who is your target audience? (age, platform, experience, motivations)",
  "What makes your game unique compared to other titles?",
  "What is the game\x27s genre and setting?",
  "Describe the core gameplay loop in one or two sentences.",
  "List the top three gameplay mechanics that define the moment-to-moment experience.",
  "How does player progression work? (meta progression, leveling, unlocks)",
  "Describe the main characters, units, or roles featured in the game.",
  "What is the desired art style? (references welcome)",
  "Which platforms will the game release on? (iOS, Android, PC, console)",
  "How will the game make money? (cosmetics, battle pass, IAPs, ads)",
  "Which existing games, films, or genres serve as key inspirations?",
  "Do you have any constraints? (budget, timeline, team size)",
  "Is there anything else that is important for the design team to know?"]

/-- Response of the `/gdd/next` route: `{"status": "done"}` or the question
payload `{"status": "ok", "question": q, "index": i, "total": t}`. -/
inductive NextResult
  | done
  | ok (question : String) (index : Nat) (total : Nat)
deriving DecidableEq

/-- `gdd_next` (gdd_api.py:102-126) on the session's `index` field: when
`index >= total` return `done` leaving the pointer untouched; otherwise read
`QUESTIONS[index]` and advance the pointer.  The `none` result stands for a
Python `IndexError` on the list access and is proved unreachable. -/
def gdd_next (index : Nat) : Option NextResult × Nat :=
  if QUESTIONS.length ≤ index then (some .done, index)
  else
    match QUESTIONS[index]? with
    | some q => (some (.ok q index QUESTIONS.length), index + 1)
    | none => (none, index)

/-- Outcome of the "go next" branch of `process_gdd_wizard`: the terminal
"All questions answered" notice, or the next question event. -/
inductive GoNextResult
  | allAnswered
  | question (q : String) (stage : Nat)
deriving DecidableEq

/-- The "go next" branch of `process_gdd_wizard` (stream_engine.py:540-589)
on `gdd_wizard_stage[session]`: compute `stage + 1`; when it reaches
`len(QUESTIONS)` emit the completion notice and return without storing the
incremented stage; otherwise store it and read `QUESTIONS[stage]`.  The
`none` result stands for an `IndexError` and is proved unreachable. -/
def wizard_go_next (stage : Nat) : Option GoNextResult × Nat :=
  let stage1 := stage + 1
  if QUESTIONS.length ≤ stage1 then (some .allAnswered, stage)
  else
    match QUESTIONS[stage1]? with
    | some q => (some (.question q stage1), stage1)
    | none => (none, stage)

/-! ## SessionManager (gdd_engine/session_manager.py) -/

/-- One stored GDD backend session: the `step` pointer, the ordered
`answers` list of `{question, answer}` pairs, and the `completed` flag. -/
structure GddSession where
  step : Nat
  answers : List (String × String)
  completed : Bool
deriving DecidableEq

/-- `SessionManager.create_session` (session_manager.py:20-28): fresh state
`{"step": 0, "answers": [], "completed": False}`. -/
def create_session : GddSession := ⟨0, [], false⟩

/-- `SessionManager.add_answer` (session_manager.py:33-46): a completed
session is left untouched; otherwise the answer is appended paired with
`QUESTIONS[step]` (or the fallback label `f"q_{step}"`), `step` is
incremented, and `completed` is set once `step` reaches `len(QUESTIONS)`. -/
def add_answer (s : GddSession) (answer : String) : GddSession :=
  if s.completed then s
  else
    let question :=
      if s.step < QUESTIONS.length then QUESTIONS.getD s.step ""
      else "q_" ++ toString s.step
    { step := s.step + 1,
      answers := s.answers ++ [(question, answer)],
      completed := if QUESTIONS.length ≤ s.step + 1 then true else s.completed }

/-- The session invariant of claim C10: answers count equals the step
pointer, the pointer never passes the questionnaire, and `completed` holds
exactly from the end of the questionnaire on. -/
def SessionInv (s : GddSession) : Prop :=
  s.answers.length = s.step ∧ s.step ≤ QUESTIONS.length
  ∧ (s.completed = true ↔ QUESTIONS.length ≤ s.step)

/-! ## Helper lemmas: whitespace-filtered conservation of the extractor -/

lemma pySlice_append_drop (l : List Char) (lc m : Nat) (h : lc ≤ m) :
    pySlice l lc m ++ l.drop m = l.drop lc := by
  unfold pySlice
  rw [List.drop_take]
  have hm : l.drop m = List.drop (m - lc) (List.drop lc l) := by
    rw [List.drop_drop]; congr 1; omega
  rw [hm, List.take_append_drop]

lemma filter_dropWhile_of_imp {p q : Char → Bool} (hpq : ∀ a, q a = true → p a = false)
    (l : List Char) : (l.dropWhile q).filter p = l.filter p := by
  induction l with
  | nil => rfl
  | cons c cs ih =>
    by_cases hc : q c = true
    · rw [List.dropWhile_cons_of_pos hc, ih, List.filter_cons, hpq c hc]
      simp
    · rw [List.dropWhile_cons_of_neg hc]

lemma noWs_pyLstrip (l : List Char) : noWs (pyLstrip l) = noWs l := by
  unfold noWs pyLstrip
  exact filter_dropWhile_of_imp (fun a ha => by simp [ha]) l

lemma noWs_reverse (l : List Char) : noWs l.reverse = (noWs l).reverse := by
  unfold noWs; exact List.filter_reverse _ _

lemma noWs_pyRstrip (l : List Char) : noWs (pyRstrip l) = noWs l := by
  unfold pyRstrip
  rw [noWs_reverse]
  have h := noWs_pyLstrip l.reverse
  unfold pyLstrip at h
  rw [h, noWs_reverse, List.reverse_reverse]

lemma noWs_pyStrip (l : List Char) : noWs (pyStrip l) = noWs l := by
  unfold pyStrip; rw [noWs_pyRstrip, noWs_pyLstrip]

lemma noWs_append (l₁ l₂ : List Char) : noWs (l₁ ++ l₂) = noWs l₁ ++ noWs l₂ :=
  List.filter_append _ _

lemma pyStrip_eq_nil_noWs {l : List Char} (h : pyStrip l = []) : noWs l = [] := by
  rw [← noWs_pyStrip, h]; rfl

/-- The loop of `extract_sentences` preserves the non-whitespace characters:
the sentences collected so far followed by the text from the current cut
onwards always carry the same non-whitespace characters in the same order. -/
lemma extractGo_noWs (buf : List Char) (suffix : List Char) :
    ∀ (idx lc : Nat) (acc : List (List Char)), lc ≤ idx →
    noWs ((extractGo buf suffix idx lc acc).1.flatten
        ++ buf.drop (extractGo buf suffix idx lc acc).2)
      = noWs (acc.flatten ++ buf.drop lc) := by
  induction suffix with
  | nil => intro idx lc acc _; rfl
  | cons ch rest ih =>
    intro idx lc acc hlc
    by_cases hb : sentenceEnd buf ch idx
    · have hcut : lc ≤ idx + 1 := by omega
      simp only [extractGo, hb, if_true]
      set s := pyStrip (pySlice buf lc (idx + 1)) with hs
      rw [ih (idx + 1) (idx + 1) _ (le_refl _)]
      rw [← pySlice_append_drop buf lc (idx + 1) hcut]
      by_cases hnil : s = []
      · simp only [hnil, if_true]
        rw [← List.append_assoc, noWs_append, noWs_append, noWs_append]
        have hws : noWs (pySlice buf lc (idx + 1)) = [] := pyStrip_eq_nil_noWs (hs ▸ hnil)
        rw [hws]
        simp
      · simp only [hnil, if_false]
        rw [List.flatten_append, ← List.append_assoc, noWs_append, noWs_append,
          noWs_append, noWs_append]
        have hws : noWs s = noWs (pySlice buf lc (idx + 1)) := by rw [hs, noWs_pyStrip]
        simp [hws, List.append_assoc]
    · simp only [extractGo, hb, if_false]
      exact ih (idx + 1) lc acc (by omega)

/-- `extract_sentences` is conservative: its sentences plus its remainder
carry exactly the buffer's non-whitespace characters, in order. -/
lemma extract_sentences_noWs (buffer : List Char) :
    noWs ((extract_sentences buffer).1.flatten ++ (extract_sentences buffer).2)
      = noWs buffer := by
  unfold extract_sentences
  simp only []
  rw [noWs_append, noWs_pyLstrip, ← noWs_append]
  have h := extractGo_noWs buffer buffer 0 0 [] (le_refl 0)
  simpa using h

/-- With no boundary anywhere in the suffix the loop never cuts. -/
lemma extractGo_of_no_bnd (buf : List Char) (suffix : List Char) :
    ∀ (idx : Nat), anyBnd buf suffix idx = false →
    ∀ (lc : Nat) (acc : List (List Char)), extractGo buf suffix idx lc acc = (acc, lc) := by
  induction suffix with
  | nil => intro idx _ lc acc; rfl
  | cons ch rest ih =>
    intro idx h lc acc
    simp only [anyBnd, Bool.or_eq_false_iff] at h
    simp only [extractGo, h.1, if_false]
    exact ih (idx + 1) h.2 lc acc

/-! ## Helper lemmas: `strip` idempotence -/

lemma dropWhile_idem (p : Char → Bool) (l : List Char) :
    List.dropWhile p (List.dropWhile p l) = List.dropWhile p l := by
  induction l with
  | nil => rfl
  | cons c cs ih =>
    by_cases hc : p c = true
    · rw [List.dropWhile_cons_of_pos hc, ih]
    · rw [List.dropWhile_cons_of_neg hc, List.dropWhile_cons_of_neg hc]

lemma pyLstrip_idem (l : List Char) : pyLstrip (pyLstrip l) = pyLstrip l :=
  dropWhile_idem pyIsSpace l

lemma pyRstrip_idem (l : List Char) : pyRstrip (pyRstrip l) = pyRstrip l := by
  unfold pyRstrip
  rw [List.reverse_reverse, dropWhile_idem]

lemma pyLstrip_head (l : List Char) :
    pyLstrip l = [] ∨ ∃ c cs, pyLstrip l = c :: cs ∧ pyIsSpace c = false := by
  induction l with
  | nil => left; rfl
  | cons a as ih =>
    by_cases ha : pyIsSpace a = true
    · rw [pyLstrip, List.dropWhile_cons_of_pos ha]; exact ih
    · right
      exact ⟨a, as, by rw [pyLstrip, List.dropWhile_cons_of_neg ha], by simpa using ha⟩

lemma pyLstrip_cons_of_neg {c : Char} {cs : List Char} (h : pyIsSpace c = false) :
    pyLstrip (c :: cs) = c :: cs := by
  rw [pyLstrip, List.dropWhile_cons_of_neg (by simp [h])]

lemma pyRstrip_cons (c : Char) (cs : List Char) :
    pyRstrip (c :: cs) = [] ∨ ∃ ys, pyRstrip (c :: cs) = c :: ys := by
  unfold pyRstrip
  rw [List.reverse_cons, List.dropWhile_append]
  by_cases he : (List.dropWhile pyIsSpace cs.reverse).isEmpty = true
  · simp only [he, if_true]
    by_cases hc : pyIsSpace c = true
    · left; simp [List.dropWhile, hc]
    · right
      refine ⟨[], ?_⟩
      simp [List.dropWhile, hc]
  · simp only [he, if_false]
    right
    exact ⟨(List.dropWhile pyIsSpace cs.reverse).reverse, by simp⟩

lemma pyLstrip_pyStrip (l : List Char) : pyLstrip (pyStrip l) = pyStrip l := by
  unfold pyStrip
  rcases pyLstrip_head l with h | ⟨c, cs, hl, hc⟩
  · rw [h]; rfl
  · rw [hl]
    rcases pyRstrip_cons c cs with h2 | ⟨ys, h2⟩
    · rw [h2]; rfl
    · rw [h2, pyLstrip_cons_of_neg hc]

lemma pyStrip_idem (l : List Char) : pyStrip (pyStrip l) = pyStrip l := by
  conv_lhs => rw [pyStrip, pyLstrip_pyStrip]
  rw [pyStrip, pyRstrip_idem]

/-! ## Helper lemmas: playback worker runs -/

/-- A resumption with the cancel event set sends nothing, leaves the event
set, and parks the worker at `done`. -/
lemma resume_flagged (s : WorkerState) (h : s.cancelSet = true) :
    (workerResume s).sent = s.sent ∧ (workerResume s).cancelSet = true
    ∧ (workerResume s).susp = Susp.done := by
  cases hs : s.susp <;> simp [workerResume, loopTop, hs, h]

lemma resume_iterate_flagged (n : Nat) :
    ∀ (s : WorkerState), s.cancelSet = true →
    (workerResume^[n] s).sent = s.sent ∧ (workerResume^[n] s).cancelSet = true := by
  induction n with
  | zero => intro s h; simp [h]
  | succ k ih =>
    intro s h
    rw [Function.iterate_succ_apply]
    obtain ⟨e1, e2, _⟩ := resume_flagged s h
    have hk := ih (workerResume s) e2
    exact ⟨by rw [hk.1, e1], hk.2⟩

lemma resume_iterate_flagged_done (n : Nat) (s : WorkerState) (h : s.cancelSet = true) :
    (workerResume^[n + 1] s).susp = Susp.done := by
  rw [Function.iterate_succ_apply']
  exact (resume_flagged _ (resume_iterate_flagged n s h).2).2.2

lemma resume_done (s : WorkerState) (h : s.susp = Susp.done) : workerResume s = s := by
  simp [workerResume, h]

/-- Characterization of an uncancelled worker run: started over queue `q`,
the worker plays exactly `playList q` after its previous output and finishes
at `done`.  `2 * q.length + 1` resumptions always suffice. -/
lemma run_from_top (q : List QueueEntry) :
    ∀ (sent0 : List (List Nat)),
    workerResume^[2 * q.length + 1] ⟨q, false, .top, sent0⟩
      = ⟨[], false, .done, sent0 ++ playList q⟩ := by
  induction q with
  | nil => intro sent0; simp [Function.iterate_one, workerResume, loopTop, playList]
  | cons e rest ih =>
    intro sent0
    have hlen : 2 * (e :: rest).length + 1 = (2 * rest.length + 1) + 1 + 1 := by
      simp [List.length_cons]; ring
    rw [hlen, Function.iterate_succ_apply, Function.iterate_succ_apply]
    have step1 : workerResume ⟨e :: rest, false, .top, sent0⟩
        = ⟨rest, false, .awaitingGen e, sent0⟩ := by
      simp [workerResume, loopTop]
    rw [step1]
    by_cases haudio : tts_task_result e.outcome = []
    · have step2 : workerResume ⟨rest, false, .awaitingGen e, sent0⟩
          = workerResume ⟨rest, false, .top, sent0⟩ := by
        simp [workerResume, haudio, loopTop]
      rw [step2, ← Function.iterate_succ_apply, Function.iterate_succ_apply', ih sent0]
      rw [resume_done _ rfl]
      have hpl : playList (e :: rest) = playList rest := by
        simp [playList, haudio]
      rw [hpl]
    · have step2 : workerResume ⟨rest, false, .awaitingGen e, sent0⟩
          = ⟨rest, false, .pacing, sent0 ++ [tts_task_result e.outcome]⟩ := by
        simp [workerResume, haudio]
      rw [step2, Function.iterate_succ_apply]
      have step3 : workerResume ⟨rest, false, .pacing, sent0 ++ [tts_task_result e.outcome]⟩
          = workerResume ⟨rest, false, .top, sent0 ++ [tts_task_result e.outcome]⟩ := by
        simp [workerResume, loopTop]
      rw [step3, ← Function.iterate_succ_apply, ih]
      have hpl : playList (e :: rest) = tts_task_result e.outcome :: playList rest := by
        simp [playList, haudio]
      rw [hpl]
      simp

/-- Playback order ignores synthesis completion times. -/
lemma playList_retime (f : Nat → Nat) (entries : List QueueEntry) :
    playList (entries.map (retime f)) = playList entries := by
  unfold playList
  rw [List.map_map]
  rfl

/-! ## Helper lemmas: single-flight protocol -/

lemma llmStep_inv (e : LlmEvent) (s : LlmState) (he : e ≠ LlmEvent.stopLlm)
    (h : LlmInv s) : LlmInv (llmStep e s) := by
  obtain ⟨h1, h2⟩ := h
  cases e with
  | textMessage handled =>
    by_cases hb : s.llm_busy = true
    · simp [llmStep, hb]; exact ⟨h1, h2⟩
    · have hb2 : s.llm_busy = false := by simpa using hb
      have h0 : s.inFlight = 0 := by
        rcases Nat.lt_or_ge s.inFlight 1 with h | h
        · omega
        · exfalso; have := h2.mpr (by omega); simp [hb2] at this
      by_cases hh : handled
      · simp [llmStep, hb2, hh]; exact ⟨h1, h2⟩
      · simp [llmStep, hb2, hh, LlmInv, h0]
  | streamDone =>
    by_cases h0 : s.inFlight = 0
    · simp [llmStep, h0]; exact ⟨h1, h2⟩
    · simp [llmStep, h0, LlmInv]; omega
  | stopLlm => exact absurd rfl he

lemma runLlm_inv (evs : List LlmEvent) (hev : ∀ e ∈ evs, e ≠ LlmEvent.stopLlm) :
    LlmInv (runLlm evs) := by
  have hfold : ∀ (l : List LlmEvent), (∀ e ∈ l, e ≠ LlmEvent.stopLlm) →
      ∀ (s : LlmState), LlmInv s → LlmInv (l.foldl (fun s e => llmStep e s) s) := by
    intro l
    induction l with
    | nil => intro _ s h; exact h
    | cons e rest ih =>
      intro hl s h
      exact ih (fun x hx => hl x (List.mem_cons_of_mem e hx)) _
        (llmStep_inv e s (hl e (List.mem_cons_self e rest)) h)
  exact hfold evs hev llmInit (by constructor <;> simp [llmInit])

/-! ## Claim theorems -/

/-- C1: after a cancellation (explicit stop, barge-in, or wizard mode switch)
is issued mid-playback, the playback worker sends no further audio bytes for
the cancelled turn however long it keeps running — even from the state where
the synthesis task of the already-dequeued sentence is still in flight
(`Susp.awaitingGen`) and would later complete with audio — and the playback
loop stops entirely (`done` after its next resumption) rather than draining
the remaining queued entries, which the cancellation clears. -/
theorem cancellation_is_silent (s : WorkerState) (n : Nat) :
    (workerResume^[n] (issue_cancellation s)).sent = s.sent
    ∧ (workerResume^[n + 1] (issue_cancellation s)).susp = Susp.done
    ∧ (issue_cancellation s).queue = [] := by
  refine ⟨?_, resume_iterate_flagged_done n _ rfl, rfl⟩
  exact (resume_iterate_flagged n _ rfl).1

/-- C2: for any sequence of entries enqueued as `[s1, ..., sn]`, the worker
emits their audio chunks strictly in enqueue order — `playList entries`, the
per-entry task results with empty results skipped, in queue order — and then
terminates; and the output is unchanged under any reassignment of the
synthesis completion times, since playback dequeues strictly FIFO and awaits
each task in turn. -/
theorem playback_fifo_order (entries : List QueueEntry) :
    (workerResume^[2 * entries.length + 1] (startWorker entries)).sent = playList entries
    ∧ (workerResume^[2 * entries.length + 1] (startWorker entries)).susp = Susp.done
    ∧ ∀ f : Nat → Nat,
        (workerResume^[2 * (entries.map (retime f)).length + 1]
          (startWorker (entries.map (retime f)))).sent
        = (workerResume^[2 * entries.length + 1] (startWorker entries)).sent := by
  have h := run_from_top entries []
  have hmap : ∀ f : Nat → Nat,
      workerResume^[2 * (entries.map (retime f)).length + 1]
        (startWorker (entries.map (retime f)))
      = ⟨[], false, .done, [] ++ playList (entries.map (retime f))⟩ := fun f =>
    run_from_top (entries.map (retime f)) []
  refine ⟨?_, ?_, ?_⟩
  · rw [startWorker, h]; simp
  · rw [startWorker, h]
  · intro f
    rw [hmap f, startWorker, h]
    simp [playList_retime]

/-- C3 (counterexample): "at most one `stream_llm_to_client` task in flight
at any instant" fails on the code: the `stop_llm` handler clears
`llm_busy[session]` (stream_engine.py:1080) while the stopped stream task is
still alive — it only observes `llm_stop_flags` at its next token — so the
concrete event sequence "text message; stop_llm; text message" launches a
second task while the first is in flight, reaching two concurrent tasks; the
second launch moreover resets `llm_stop_flags` (stream_engine.py:284), so
the first task never observes the stop. -/
theorem llm_single_flight_counterexample :
    runLlm [LlmEvent.textMessage false, LlmEvent.stopLlm, LlmEvent.textMessage false]
      = ⟨true, false, 2⟩
    ∧ ¬(runLlm [LlmEvent.textMessage false, LlmEvent.stopLlm,
          LlmEvent.textMessage false]).inFlight ≤ 1 := by
  decide

/-- C3 (amended): in the absence of `stop_llm` events, at most one
`stream_llm_to_client` task is in flight at any instant: after any stop-free
event sequence from a fresh session at most one task is alive and `llm_busy`
is set exactly while one is; a text/final event arriving while the flag is
set leaves the state untouched (dropped, not queued); and a stream completing
or erroring clears the flag.  (A `stop_llm` event also clears `llm_busy`,
while the stopped task may still be winding down, so a text event right after
a stop can launch a second concurrent stream task.) -/
theorem llm_single_flight_amended :
    (∀ evs : List LlmEvent, (∀ e ∈ evs, e ≠ LlmEvent.stopLlm) →
      (runLlm evs).inFlight ≤ 1
      ∧ ((runLlm evs).llm_busy = true ↔ (runLlm evs).inFlight = 1))
    ∧ (∀ (s : LlmState) (handled : Bool), s.llm_busy = true →
        llmStep (.textMessage handled) s = s)
    ∧ (∀ s : LlmState, s.inFlight ≠ 0 → (llmStep .streamDone s).llm_busy = false) := by
  refine ⟨fun evs hev => runLlm_inv evs hev, fun s handled h => ?_, fun s h => ?_⟩
  · simp [llmStep, h]
  · simp [llmStep, h]

/-- Witness for C3 (amended): a concrete stop-free run — the second text
event is dropped while busy, and a stream completion clears the flag. -/
theorem llm_single_flight_amended_witness :
    llmStep (.textMessage false) ⟨true, false, 1⟩ = ⟨true, false, 1⟩
    ∧ (llmStep .streamDone ⟨true, false, 1⟩).llm_busy = false
    ∧ (runLlm [.textMessage false, .textMessage false, .streamDone]).inFlight ≤ 1 :=
  ⟨llm_single_flight_amended.2.1 ⟨true, false, 1⟩ false rfl,
    llm_single_flight_amended.2.2 ⟨true, false, 1⟩ (by decide),
    (llm_single_flight_amended.1 [.textMessage false, .textMessage false, .streamDone]
      (by decide)).1⟩

/-- C4: when a second finalized voice utterance arrives while an earlier one
is still waiting out its debounce delay, the earlier pending submission is
cancelled and never submitted: firing the surviving timer submits exactly the
latest utterance, and the pending slot holds only the latest text. -/
theorem debounce_supersession (s : SttState) (t1 t2 : List Char)
    (h1a : pyStrip t1 ≠ []) (h1b : pyLower (pyStrip t1) ∉ NOISE)
    (h1c : s.pending_user_text ≠ some (pyStrip t1))
    (h2a : pyStrip t2 ≠ []) (h2b : pyLower (pyStrip t2) ∉ NOISE)
    (h12 : pyStrip t2 ≠ pyStrip t1) :
    (submit_after_delay (on_final (on_final s t1) t2)).submitted
      = s.submitted ++ [pyStrip t2]
    ∧ (on_final (on_final s t1) t2).pending_user_text = some (pyStrip t2) := by
  have hcond1 : ¬(pyStrip t1 = [] ∨ pyLower (pyStrip t1) ∈ NOISE) := by
    push_neg; exact ⟨h1a, h1b⟩
  have hcond2 : ¬(pyStrip t2 = [] ∨ pyLower (pyStrip t2) ∈ NOISE) := by
    push_neg; exact ⟨h2a, h2b⟩
  have hs1 : on_final s t1
      = { pending_user_text := some (pyStrip t1), timerActive := true,
          reviewActive := false, submitted := s.submitted } := by
    simp only [on_final]
    rw [if_neg hcond1, if_neg h1c]
  have hs2 : on_final (on_final s t1) t2
      = { pending_user_text := some (pyStrip t2), timerActive := true,
          reviewActive := false, submitted := s.submitted } := by
    rw [hs1]
    simp only [on_final]
    rw [if_neg hcond2,
      if_neg (by simp only [Option.some_inj]; exact fun h => h12 h.symm)]
  refine ⟨?_, by rw [hs2]⟩
  rw [hs2]
  simp only [submit_after_delay]
  rw [if_neg (by simp)]
  simp only [Option.getD_some, pyStrip_idem]
  rw [if_neg h2a]

/-- Witness for C4: the spec's own scenario — "I want a" superseded by
"I want a fantasy RPG." before the delay elapses; only the second is ever
submitted. -/
theorem debounce_supersession_witness :
    (submit_after_delay (on_final (on_final ⟨none, false, false, []⟩ "I want a".data)
        "I want a fantasy RPG.".data)).submitted = [] ++ ["I want a fantasy RPG.".data] :=
  (debounce_supersession ⟨none, false, false, []⟩ "I want a".data
    "I want a fantasy RPG.".data (by decide) (by decide) (by decide)
    (by decide) (by decide) (by decide)).1

/-- C5 (counterexample): the claim that a buffer with no sentence boundary is
returned whole as the remainder fails on the code; on the boundary-free
buffer `" a"` the code returns remainder `"a"` — `buf[last_cut:].lstrip()`
removes the leading whitespace — not the whole buffer `" a"`. -/
theorem extract_sentences_whole_buffer_counterexample :
    hasBoundary " a".data = false
    ∧ extract_sentences " a".data ≠ ([], " a".data)
    ∧ extract_sentences " a".data = ([], "a".data) := by
  decide

/-- C5 (amended): the extractor splits at a terminal punctuation mark
(`. ! ? …`) immediately followed by whitespace or end-of-input; for every
buffer containing no such boundary it returns zero sentences and the buffer
*stripped of leading whitespace* as the remainder; and on the concrete inputs
`extract("Hello world. How are")` returns `(["Hello world."], "How are")` and
`extract("How are you?")` returns `(["How are you?"], "")`. -/
theorem extract_sentences_no_boundary_amended :
    (∀ buf : List Char, hasBoundary buf = false →
      extract_sentences buf = ([], pyLstrip buf))
    ∧ extract_sentences "Hello world. How are".data
        = (["Hello world.".data], "How are".data)
    ∧ extract_sentences "How are you?".data = (["How are you?".data], "".data) := by
  refine ⟨fun buf h => ?_, by decide, by decide⟩
  unfold extract_sentences
  rw [extractGo_of_no_bnd buf buf 0 h 0 []]
  simp

/-- Witness for C5 (amended): a concrete boundary-free buffer. -/
theorem extract_sentences_no_boundary_amended_witness :
    extract_sentences "no terminal punctuation here".data
      = ([], pyLstrip "no terminal punctuation here".data) :=
  extract_sentences_no_boundary_amended.1 "no terminal punctuation here".data (by decide)

/-- C6: streaming the extractor is lossless and duplicate-free: for every
buffer `b` with `extract_sentences b = (ss, r)` and every appended suffix
`t`, the sentences of `extract_sentences (r ++ t)` together with `ss` and the
final remainder carry every non-whitespace character of `b ++ t` exactly
once, in order — nothing is dropped and nothing is emitted twice when the
function is re-run on the un-consumed remainder plus new tokens. -/
theorem extract_sentences_streaming_lossless (b t : List Char) :
    noWs (((extract_sentences b).1
            ++ (extract_sentences ((extract_sentences b).2 ++ t)).1).flatten
          ++ (extract_sentences ((extract_sentences b).2 ++ t)).2)
      = noWs (b ++ t) := by
  have h1 := extract_sentences_noWs b
  have h2 := extract_sentences_noWs ((extract_sentences b).2 ++ t)
  rw [List.flatten_append, List.append_assoc, noWs_append, h2, noWs_append,
    ← List.append_assoc, noWs_append, ← noWs_append, h1, ← noWs_append]

/-- C7: a synthesis failure yields empty audio instead of raising —
`azure_tts_generate_sync` returns `b""` on every non-success reason, and a
task that errors or is cancelled is read back as `b""` — and the playback
worker treats empty audio as a silent skip: a queue headed by a failed
sentence plays exactly the remaining entries and still terminates normally,
so one bad sentence never aborts the pipeline. -/
theorem synthesis_failure_silent_skip :
    (∀ result : SpeechResult, result.reason ≠ ResultReason.synthesizingAudioCompleted →
        azure_tts_generate_sync result = [])
    ∧ tts_task_result SynthOutcome.err = [] ∧ tts_task_result SynthOutcome.cancelled = []
    ∧ ∀ (e : QueueEntry) (rest : List QueueEntry), tts_task_result e.outcome = [] →
        (workerResume^[2 * (e :: rest).length + 1] (startWorker (e :: rest))).sent
            = playList rest
        ∧ (workerResume^[2 * (e :: rest).length + 1] (startWorker (e :: rest))).susp
            = Susp.done := by
  refine ⟨fun result h => ?_, rfl, rfl, fun e rest h => ?_⟩
  · simp [azure_tts_generate_sync, h]
  · have hr := run_from_top (e :: rest) []
    rw [startWorker, hr]
    have hpl : playList (e :: rest) = playList rest := by simp [playList, h]
    simp [hpl]

/-- Witness for C7: a cancelled synthesis result gives empty bytes, and a
queue headed by a failed sentence still plays the following good sentence. -/
theorem synthesis_failure_silent_skip_witness :
    azure_tts_generate_sync ⟨ResultReason.synthesisCanceled, [1, 2, 3]⟩ = []
    ∧ (workerResume^[5]
        (startWorker [⟨"Bad".data, .err, 9⟩, ⟨"Ok".data, .ok [4, 5], 0⟩])).sent
      = [[4, 5]] := by
  refine ⟨synthesis_failure_silent_skip.1 _ (by decide), ?_⟩
  have h := (synthesis_failure_silent_skip.2.2.2 ⟨"Bad".data, .err, 9⟩
    [⟨"Ok".data, .ok [4, 5], 0⟩] (by decide)).1
  simpa [playList, tts_task_result] using h

/-- C8: advancing past the last question returns a terminal "done" marker
rather than raising: `gdd_next` never hits an out-of-range access, returns
`done` with the pointer unchanged once `index ≥ len(QUESTIONS)`, and repeated
calls stay `done` with the same pointer; likewise the wizard's "go next"
branch never indexes out of range and, once `stage + 1` reaches the end,
reports completion leaving the stage pointer unchanged. -/
theorem wizard_advance_done_idempotent :
    (∀ index : Nat, (gdd_next index).1 ≠ none)
    ∧ (∀ index : Nat, QUESTIONS.length ≤ index →
        gdd_next index = (some NextResult.done, index))
    ∧ (∀ index : Nat, QUESTIONS.length ≤ index →
        gdd_next (gdd_next index).2 = (some NextResult.done, index))
    ∧ (∀ stage : Nat, (wizard_go_next stage).1 ≠ none)
    ∧ (∀ stage : Nat, QUESTIONS.length ≤ stage + 1 →
        wizard_go_next stage = (some GoNextResult.allAnswered, stage)) := by
  have hget : ∀ n : Nat, ¬QUESTIONS.length ≤ n → ∃ q, QUESTIONS[n]? = some q :=
    fun n h => ⟨_, List.getElem?_eq_getElem (by omega)⟩
  refine ⟨fun index => ?_, fun index h => ?_, fun index h => ?_, fun stage => ?_,
    fun stage h => ?_⟩
  · by_cases h : QUESTIONS.length ≤ index
    · simp [gdd_next, h]
    · obtain ⟨q, hq⟩ := hget index h
      simp [gdd_next, h, hq]
  · simp [gdd_next, h]
  · have h1 : gdd_next index = (some NextResult.done, index) := by simp [gdd_next, h]
    rw [h1]
    simp [gdd_next, h]
  · by_cases h : QUESTIONS.length ≤ stage + 1
    · simp [wizard_go_next, h]
    · obtain ⟨q, hq⟩ := hget (stage + 1) h
      simp [wizard_go_next, h, hq]
  · simp [wizard_go_next, h]

/-- Witness for C8: past the 14-question list, `/gdd/next` answers `done`
without moving the pointer, and the wizard's "go next" from the last question
reports completion without moving the stage. -/
theorem wizard_advance_done_idempotent_witness :
    gdd_next 14 = (some NextResult.done, 14)
    ∧ wizard_go_next 13 = (some GoNextResult.allAnswered, 13) :=
  ⟨wizard_advance_done_idempotent.2.1 14 (by decide),
    wizard_advance_done_idempotent.2.2.2.2 13 (by decide)⟩

/-- C9: a finalized recognition event whose text equals the last-seen
finalized utterance for the session is ignored with no effect at all on the
session state, and delivering the same final twice in a row has exactly the
effect of delivering it once. -/
theorem duplicate_final_ignored (s : SttState) (t : List Char) :
    (s.pending_user_text = some (pyStrip t) → on_final s t = s)
    ∧ on_final (on_final s t) t = on_final s t := by
  constructor
  · intro h
    simp only [on_final]
    by_cases hn : pyStrip t = [] ∨ pyLower (pyStrip t) ∈ NOISE
    · rw [if_pos hn]
    · rw [if_neg hn, if_pos h]
  · by_cases hn : pyStrip t = [] ∨ pyLower (pyStrip t) ∈ NOISE
    · have h1 : on_final s t = s := by simp only [on_final]; rw [if_pos hn]
      rw [h1]; exact h1
    · by_cases hd : s.pending_user_text = some (pyStrip t)
      · have h1 : on_final s t = s := by simp only [on_final]; rw [if_neg hn, if_pos hd]
        rw [h1]; exact h1
      · have h1 : on_final s t
            = { pending_user_text := some (pyStrip t), timerActive := true,
                reviewActive := false, submitted := s.submitted } := by
          simp only [on_final]; rw [if_neg hn, if_neg hd]
        rw [h1]
        simp only [on_final]
        rw [if_neg hn]
        simp

/-- Witness for C9: a concrete re-emitted final leaves the state unchanged. -/
theorem duplicate_final_ignored_witness :
    on_final ⟨some "hi there.".data, true, true, ["x".data]⟩ "hi there.".data
      = ⟨some "hi there.".data, true, true, ["x".data]⟩ :=
  (duplicate_final_ignored ⟨some "hi there.".data, true, true, ["x".data]⟩
    "hi there.".data).1 (by decide)

/-- C10: the invariant `len(answers) = step ∧ step ≤ len(QUESTIONS) ∧
(completed ↔ step ≥ len(QUESTIONS))` holds for a freshly created session and
is preserved by every `add_answer`; and `add_answer` on a completed session
leaves the session entirely unchanged, so no answer is ever recorded past the
last question. -/
theorem session_manager_invariant :
    SessionInv create_session
    ∧ (∀ (s : GddSession) (a : String), SessionInv s → SessionInv (add_answer s a))
    ∧ (∀ (s : GddSession) (a : String), s.completed = true → add_answer s a = s) := by
  refine ⟨⟨rfl, by decide, by decide⟩, fun s a hinv => ?_, fun s a h => ?_⟩
  · obtain ⟨h1, h2, h3⟩ := hinv
    by_cases hc : s.completed = true
    · rw [add_answer, if_pos hc]
      exact ⟨h1, h2, h3⟩
    · have hc2 : s.completed = false := by simpa using hc
      have hlt : s.step < QUESTIONS.length := by
        rcases Nat.lt_or_ge s.step QUESTIONS.length with h | h
        · exact h
        · exfalso; rw [h3.mpr (by omega)] at hc2; simp at hc2
      have hrec : add_answer s a
          = { step := s.step + 1,
              answers := s.answers
                ++ [(if s.step < QUESTIONS.length then QUESTIONS.getD s.step ""
                      else "q_" ++ toString s.step, a)],
              completed := if QUESTIONS.length ≤ s.step + 1 then true else s.completed } := by
        rw [add_answer, if_neg hc]
      refine And.intro ?_ (And.intro ?_ ?_)
      · rw [hrec]; simp [h1]
      · rw [hrec]
        show s.step + 1 ≤ QUESTIONS.length
        omega
      · rw [hrec]
        show (if QUESTIONS.length ≤ s.step + 1 then true else s.completed) = true
          ↔ QUESTIONS.length ≤ s.step + 1
        by_cases hdone : QUESTIONS.length ≤ s.step + 1
        · simp [hdone]
        · rw [if_neg hdone, hc2]
          simp [hdone]
  · rw [add_answer, if_pos h]

/-- Witness for C10: the invariant survives a concrete `add_answer`, and a
completed session absorbs `add_answer` unchanged. -/
theorem session_manager_invariant_witness :
    SessionInv (add_answer create_session "A cozy farming RPG")
    ∧ add_answer ⟨14, List.replicate 14 ("q", "a"), true⟩ "late" =
        ⟨14, List.replicate 14 ("q", "a"), true⟩ :=
  ⟨session_manager_invariant.2.1 create_session "A cozy farming RPG"
      session_manager_invariant.1,
    session_manager_invariant.2.2 ⟨14, List.replicate 14 ("q", "a"), true⟩ "late" rfl⟩
